import Mathlib

/-!
# navc symbol store (symbols-db.go) and daemon start-up (main.go)

A shallow embedding of the Go sources.  The program keeps its symbols in one SQLite
table reached through database/sql; the storage engine is not part of the program, so it
is modelled here at the level of the SQL statements the program sends:

* the database file is the content of table functions, if the table exists;
* every call into the engine takes a fault argument, the failure (if any) with which the
  storage layer answers that call, so that every error branch of the Go code is live;
* every statement handed to the engine is recorded in a journal kept with the handle;
* result rows that the program steps to a row and then never closes keep their
  connection and its read lock on the file for the life of the handle (the program closes
  nothing, see the TODO at symbols-db.go line 16); while they are open, a write from
  another connection of the handle cannot commit and returns the lock error.

Go values: a nil error is none, a nil slice is none, an empty non-nil slice is some [].
-/

namespace Navc

/-! ## Data model -/

/-- Go struct Function (symbols-db.go lines 9-14).  Fields line and col are Go int
values, stored in INTEGER columns; the program does no arithmetic on them. -/
structure Function where
  name : String
  file : String
  line : Int
  col : Int
deriving DecidableEq, Repr

/-- One row of table functions; the columns are those of the CREATE TABLE statement of
initDB, in its order: name TEXT, file TEXT, line INTEGER, col INTEGER. -/
structure Row where
  name : String
  file : String
  line : Int
  col : Int
deriving DecidableEq, Repr

/-- Errors the storage layer and the operating system can answer with. -/
inductive Error where
  /-- PRIMARY KEY(name, file) violated by an INSERT. -/
  | uniqueConstraint
  /-- CREATE TABLE on a table that exists. -/
  | tableExists
  /-- Statement compiled or run against a database without table functions. -/
  | noSuchTable
  /-- Removal of a file that does not exist. -/
  | notExist
  /-- Removal refused by the operating system (permissions, read-only or sticky
  directory). -/
  | permission
  /-- SQLite database is locked: a write cannot commit while another connection holds a
  read lock. -/
  | locked
  /-- Any other failure of the storage layer (disk I/O, corruption, lock). -/
  | storage (code : Nat)
deriving DecidableEq, Repr

/-- Statements the program hands to the storage engine. -/
inductive Call where
  /-- SELECT name FROM sqlite_master WHERE type=table AND name=functions. -/
  | queryMaster
  /-- CREATE TABLE functions (...); DELETE FROM functions. -/
  | execInit
  /-- Prepare of the INSERT statement. -/
  | prepareInsert
  /-- Prepare of the SELECT statement. -/
  | prepareSelect
  /-- Exec of the prepared INSERT with its four arguments. -/
  | execInsert (a1 a2 : String) (a3 a4 : Int)
  /-- Query of the prepared SELECT with its argument. -/
  | querySelect (a1 : String)
deriving DecidableEq, Repr

/-- Content of the SQLite file as far as the program reads or writes it: the rows of table
functions in insertion order, or none when the table does not exist. -/
structure Database where
  functions : Option (List Row)
deriving DecidableEq, Repr

/-- What is found at the database path: none when there is no file. -/
abbrev File := Option Database

/-- Go sql.DB: the open database together with the journal of statements run on it, and
whether some result rows were left open on a row (their connection then holds a read lock
on the file). -/
structure DB where
  file : Database
  journal : List Call
  unclosedRows : Bool
deriving DecidableEq, Repr

/-- Go struct SymbolsDB (lines 17-22).  Its two prepared statements are fixed SQL texts;
they are the functions insertFunc_Exec and selectFunc_Query below. -/
structure SymbolsDB where
  db : DB
deriving DecidableEq, Repr

/-- Result of a function that may return a Go error or end the process with log.Fatal. -/
inductive Outcome (α : Type) where
  | ok (a : α)
  | err (e : Error)
  | fatal (e : Error)
deriving Repr

/-! ## Storage engine -/

/-- The rows of a store, the empty list when the table is missing. -/
def SymbolsDB.rows (db : SymbolsDB) : List Row :=
  db.db.file.functions.getD []

/-- A store whose table holds the given rows, with the given journal and the given state
of unclosed result rows. -/
def SymbolsDB.holding (rows : List Row) (journal : List Call) (unclosedRows : Bool) :
    SymbolsDB :=
  { db := { file := { functions := some rows }, journal := journal,
            unclosedRows := unclosedRows } }

/-- Whether a row with primary key (name, file) is stored. -/
def hasKey (rows : List Row) (name file : String) : Bool :=
  rows.any (fun r => decide (r.name = name ∧ r.file = file))

/-- The sql.Open call: SQLite creates an empty database when the file is missing. -/
def sqlOpen (file : File) : DB :=
  { file := file.getD { functions := none }, journal := [], unclosedRows := false }

/-- Query of sqlite_master for table functions: the names found. -/
def masterQuery (d : DB) (fault : Option Error) : Except Error (List String) × DB :=
  let d1 : DB := { d with journal := d.journal ++ [Call.queryMaster] }
  match fault with
  | some e => (Except.error e, d1)
  | none =>
    match d.file.functions with
    | some _ => (Except.ok ["functions"], d1)
    | none => (Except.ok [], d1)

/-- Exec of the init statement: CREATE TABLE functions, then DELETE FROM functions. -/
def initExec (d : DB) (fault : Option Error) : Option Error × DB :=
  let d1 : DB := { d with journal := d.journal ++ [Call.execInit] }
  match fault with
  | some e => (some e, d1)
  | none =>
    match d.file.functions with
    | some _ => (some Error.tableExists, d1)
    | none =>
      if d.unclosedRows then (some Error.locked, d1)
      else
        let created : List Row := []
        let cleared : List Row := created.filter (fun _ => false)
        (none, { d1 with file := { functions := some cleared } })

/-- Prepare of a statement on table functions. -/
def prepare (d : DB) (fault : Option Error) (c : Call) : Option Error × DB :=
  let d1 : DB := { d with journal := d.journal ++ [c] }
  match fault with
  | some e => (some e, d1)
  | none =>
    match d.file.functions with
    | some _ => (none, d1)
    | none => (some Error.noSuchTable, d1)

/-- Exec of INSERT INTO functions(name, file, line, col) values (?, ?, ?, ?): the four
arguments fill the four named columns; the primary key (name, file) rejects a second row
with the same name and file; a row that passes the key check is committed unless unclosed
result rows hold their read lock, in which case the lock error is returned; a rejected or
failed statement changes nothing. -/
def insertFunc_Exec (d : DB) (fault : Option Error) (a1 a2 : String) (a3 a4 : Int) :
    Option Error × DB :=
  let d1 : DB := { d with journal := d.journal ++ [Call.execInsert a1 a2 a3 a4] }
  match fault with
  | some e => (some e, d1)
  | none =>
    match d.file.functions with
    | none => (some Error.noSuchTable, d1)
    | some rows =>
      if hasKey rows a1 a2 then (some Error.uniqueConstraint, d1)
      else if d.unclosedRows then (some Error.locked, d1)
      else
        (none, { d1 with file :=
          { functions := some (rows ++ [{ name := a1, file := a2, line := a3, col := a4 }]) } })

/-- Faults of one run of the SELECT statement, one field for each place where
database/sql reports a failure of a query: the Query call, the stepping to a row, and the
Scan of a row. -/
structure SelectFaults where
  /-- Query itself fails and returns the error. -/
  query : Option Error
  /-- The statement fails while stepping to the row of this index.  Rows.Next returns
  false both when there is no next row and when preparing it failed; the failure is then
  only visible through Rows.Err, so the rows delivered end before this index. -/
  step : Option Nat
  /-- Scan of the row of this index fails and returns the error. -/
  scan : Nat → Option Error

/-- No fault in the SELECT. -/
def SelectFaults.healthy : SelectFaults :=
  { query := none, step := none, scan := fun _ => none }

/-- One row delivered by Next: the columns of SELECT * in table order, and the failure
with which Scan will answer on it. -/
structure Fetched where
  c1 : String
  c2 : String
  c3 : Int
  c4 : Int
  scanFault : Option Error

/-- Go sql.Rows: the rows Next delivers before it reports false. -/
abbrev Rows := List Fetched

/-- Rows of SELECT *, numbered from index i. -/
def fetchFrom (scan : Nat → Option Error) : Nat → List Row → Rows
  | _, [] => []
  | i, r :: rest =>
    { c1 := r.name, c2 := r.file, c3 := r.line, c4 := r.col, scanFault := scan i } ::
      fetchFrom scan (i + 1) rest

/-- Query of SELECT * FROM functions WHERE name=?. -/
def selectFunc_Query (d : DB) (f : SelectFaults) (a1 : String) : Except Error Rows × DB :=
  let d1 : DB := { d with journal := d.journal ++ [Call.querySelect a1] }
  match f.query with
  | some e => (Except.error e, d1)
  | none =>
    match d.file.functions with
    | none => (Except.error Error.noSuchTable, d1)
    | some rows =>
      let hits := rows.filter (fun r => decide (r.name = a1))
      let delivered := match f.step with
        | none => hits
        | some k => hits.take k
      (Except.ok (fetchFrom f.scan 0 delivered), d1)

/-- Go Rows.Scan into (name, file, line, col) pointers: destination i takes column i. -/
def Scan (r : Fetched) : Except Error Function :=
  match r.scanFault with
  | some e => Except.error e
  | none => Except.ok { name := r.c1, file := r.c2, line := r.c3, col := r.c4 }

/-! ## symbols-db.go -/

/-- Method empty (lines 24-32): no row in sqlite_master for table functions.  The method
returns the negation of rows.Next() and never closes rows: a Next that returns false closes
them, a Next that returns true leaves them open on their row. -/
def SymbolsDB.empty (db : SymbolsDB) (fault : Option Error) : Outcome (Bool × SymbolsDB) :=
  match masterQuery db.db fault with
  | (Except.error e, _) => Outcome.fatal e
  | (Except.ok rows, d1) =>
    let next : Bool := !rows.isEmpty
    Outcome.ok (!next, { db := { d1 with unclosedRows := d1.unclosedRows || next } })

/-- Method initDB (lines 34-49). -/
def SymbolsDB.initDB (db : SymbolsDB) (fault : Option Error) : Outcome SymbolsDB :=
  match initExec db.db fault with
  | (some e, _) => Outcome.fatal e
  | (none, d1) => Outcome.ok { db := d1 }

/-- Faults of the calls made by OpenSymbolsDB. -/
structure OpenFaults where
  sqlOpen : Option Error
  master : Option Error
  init : Option Error
  prepareInsert : Option Error
  prepareSelect : Option Error

/-- No fault while opening. -/
def OpenFaults.healthy : OpenFaults :=
  { sqlOpen := none, master := none, init := none, prepareInsert := none,
    prepareSelect := none }

/-- The two Prepare calls of OpenSymbolsDB (lines 63-79). -/
def prepareBoth (f : OpenFaults) (r : SymbolsDB) : Outcome SymbolsDB :=
  match prepare r.db f.prepareInsert Call.prepareInsert with
  | (some e, _) => Outcome.err e
  | (none, d1) =>
    match prepare d1 f.prepareSelect Call.prepareSelect with
    | (some e, _) => Outcome.err e
    | (none, d2) => Outcome.ok { db := d2 }

/-- Function OpenSymbolsDB (lines 51-80). -/
def OpenSymbolsDB (f : OpenFaults) (path : File) : Outcome SymbolsDB :=
  match f.sqlOpen with
  | some e => Outcome.err e
  | none =>
    let r : SymbolsDB := { db := sqlOpen path }
    match r.empty f.master with
    | Outcome.fatal e => Outcome.fatal e
    | Outcome.err e => Outcome.err e
    | Outcome.ok (true, r1) =>
      match r1.initDB f.init with
      | Outcome.fatal e => Outcome.fatal e
      | Outcome.err e => Outcome.err e
      | Outcome.ok r2 => prepareBoth f r2
    | Outcome.ok (false, r1) => prepareBoth f r1

/-- Method InsertFunction (lines 82-89): the error returned and the store afterwards. -/
def InsertFunction (db : SymbolsDB) (fault : Option Error) (fn : Function) :
    Option Error × SymbolsDB :=
  match insertFunc_Exec db.db fault fn.name fn.file fn.line fn.col with
  | (some err, d1) => (some err, { db := d1 })
  | (none, d1) => (none, { db := d1 })

/-- The loop of GetFunctions (lines 99-108) over the rows Next delivers. -/
def scanLoop : Rows → List Function → Option (List Function) × Option Error
  | [], rs => (some rs, none)
  | r :: rest, rs =>
    match Scan r with
    | Except.error err => (none, some err)
    | Except.ok f => scanLoop rest (rs ++ [f])

/-- Method GetFunctions (lines 91-111): the slice and error returned, and the store.  The
loop ends either when Next returns false, which closes the rows, or by the return on a Scan
error, which leaves them open on their row. -/
def GetFunctions (db : SymbolsDB) (f : SelectFaults) (name : String) :
    (Option (List Function) × Option Error) × SymbolsDB :=
  let rs : List Function := []
  match selectFunc_Query db.db f name with
  | (Except.error err, d1) => ((none, some err), { db := d1 })
  | (Except.ok r, d1) =>
    match scanLoop r rs with
    | (res, some err) => ((res, some err), { db := { d1 with unclosedRows := true } })
    | (res, none) => ((res, none), { db := d1 })

/-- A sequence of InsertFunction calls, each with the fault the storage layer answers it
with; the store after the last one. -/
def insertEach : List (Option Error × Function) → SymbolsDB → SymbolsDB
  | [], db => db
  | (fault, fn) :: rest, db => insertEach rest (InsertFunction db fault fn).2

/-- InsertFunction issued for each symbol of a list, the storage layer not failing. -/
def insertAll (l : List Function) (db : SymbolsDB) : SymbolsDB :=
  insertEach (l.map (fun fn => (none, fn))) db

/-! ## main.go -/

/-- Go os.Remove on the database path: the error returned and what is at the path
afterwards.  The fault is the refusal, if any, of the operating system to remove an
existing file; a refused removal leaves the file in place. -/
def osRemove (fault : Option Error) (path : File) : Option Error × File :=
  match path with
  | none => (some Error.notExist, none)
  | some content =>
    match fault with
    | some e => (some e, some content)
    | none => (none, none)

/-- Modelled from the spec: NewDBConnFactory is not among the sources; by section 4.1
(store initialization: if the backing table does not exist, create it; if it exists, reuse
it) it opens the store at the path, which is what OpenSymbolsDB of symbols-db.go does. -/
def NewDBConnFactory (f : OpenFaults) (dbFile : File) : Outcome SymbolsDB :=
  OpenSymbolsDB f dbFile

/-- Lines 86-92 of main: the optional reset, then the opening of the store.  The error
of os.Remove is not looked at (line 88).  Returns what is at the database path when the
store is opened, and the outcome of opening it. -/
def mainOpenStore (resetDb : Bool) (removeFault : Option Error) (f : OpenFaults)
    (dbFile : File) : File × Outcome SymbolsDB :=
  let atPath : File := if resetDb then (osRemove removeFault dbFile).2 else dbFile
  (atPath, NewDBConnFactory f atPath)

/-! ## Vocabulary of the statements -/

/-- The row that stores a symbol, field by field. -/
def rowOf (fn : Function) : Row :=
  { name := fn.name, file := fn.file, line := fn.line, col := fn.col }

/-- The symbol a row stores, field by field. -/
def functionOf (r : Row) : Function :=
  { name := r.name, file := r.file, line := r.line, col := r.col }

/-- Number of stored rows with primary key (name, file). -/
def keyCount (rows : List Row) (name file : String) : Nat :=
  rows.countP (fun r => decide (r.name = name ∧ r.file = file))

/-- No two rows share their (name, file) pair. -/
def KeyUnique (rows : List Row) : Prop :=
  (rows.map (fun r => (r.name, r.file))).Nodup

instance (rows : List Row) : Decidable (KeyUnique rows) := by
  unfold KeyUnique; infer_instance

/-- The table after one InsertFunction call, as a function of the table before and of
whether result rows are left open: a reference for the proofs, related to the code by
insertEach_holding. -/
def tableStep (unclosed : Bool) (rows : List Row) (op : Option Error × Function) : List Row :=
  if op.1.isSome || hasKey rows op.2.name op.2.file || unclosed then rows
  else rows ++ [rowOf op.2]

/-- The table after a sequence of InsertFunction calls. -/
def tableAfter (unclosed : Bool) : List (Option Error × Function) → List Row → List Row
  | [], rows => rows
  | op :: rest, rows => tableAfter unclosed rest (tableStep unclosed rows op)

/-- The handle OpenSymbolsDB returns where there is no file: an empty table, the four
statements of the open in the journal, no result rows left open. -/
def freshStore : SymbolsDB :=
  SymbolsDB.holding []
    [Call.queryMaster, Call.execInit, Call.prepareInsert, Call.prepareSelect] false

/-- The handle OpenSymbolsDB returns on a file whose table exists with the given rows: the
rows of the sqlite_master query of empty are left open. -/
def reopenedStore (rows : List Row) : SymbolsDB :=
  SymbolsDB.holding rows [Call.queryMaster, Call.prepareInsert, Call.prepareSelect] true

/-- The symbol of the demo in symbols-db.go (line 119). -/
def demoFn : Function := { name := "f", file := "a.c", line := 10, col := 5 }

/-! ## Basic facts -/

theorem hasKey_iff (rows : List Row) (n f : String) :
    hasKey rows n f = true ↔ ∃ r ∈ rows, r.name = n ∧ r.file = f := by
  simp [hasKey]

theorem rowOf_functionOf (r : Row) : rowOf (functionOf r) = r := rfl

theorem functionOf_rowOf (fn : Function) : functionOf (rowOf fn) = fn := rfl

theorem functionOf_injective : Function.Injective functionOf := by
  intro a b h
  have := congrArg rowOf h
  simpa [rowOf_functionOf] using this

theorem InsertFunction_fault (db : SymbolsDB) (e : Error) (fn : Function) :
    InsertFunction db (some e) fn =
      (some e, { db := { db.db with journal :=
        db.db.journal ++ [Call.execInsert fn.name fn.file fn.line fn.col] } }) := by
  simp [InsertFunction, insertFunc_Exec]

theorem InsertFunction_holding (rows : List Row) (j : List Call) (lk : Bool) (fn : Function) :
    InsertFunction (SymbolsDB.holding rows j lk) none fn =
      if hasKey rows fn.name fn.file then
        (some Error.uniqueConstraint,
          SymbolsDB.holding rows (j ++ [Call.execInsert fn.name fn.file fn.line fn.col]) lk)
      else if lk then
        (some Error.locked,
          SymbolsDB.holding rows (j ++ [Call.execInsert fn.name fn.file fn.line fn.col]) lk)
      else
        (none, SymbolsDB.holding (rows ++ [rowOf fn])
          (j ++ [Call.execInsert fn.name fn.file fn.line fn.col]) lk) := by
  simp only [InsertFunction, insertFunc_Exec, SymbolsDB.holding, rowOf]
  split_ifs <;> rfl

theorem InsertFunction_noTable (j : List Call) (lk : Bool) (fault : Option Error)
    (fn : Function) :
    ∃ e, InsertFunction
        { db := { file := { functions := none }, journal := j, unclosedRows := lk } } fault fn =
      (some e, { db := { file := { functions := none }, journal :=
        j ++ [Call.execInsert fn.name fn.file fn.line fn.col], unclosedRows := lk } }) := by
  cases fault with
  | none => exact ⟨Error.noSuchTable, rfl⟩
  | some e => exact ⟨e, rfl⟩

theorem scanLoop_healthy (l : List Row) (i : Nat) (acc : List Function) :
    scanLoop (fetchFrom (fun _ => none) i l) acc = (some (acc ++ l.map functionOf), none) := by
  induction l generalizing i acc with
  | nil => simp [fetchFrom, scanLoop]
  | cons r rest ih =>
    simp only [fetchFrom, scanLoop, Scan]
    rw [ih]
    simp [functionOf]

theorem GetFunctions_holding (rows : List Row) (j : List Call) (lk : Bool) (n : String) :
    GetFunctions (SymbolsDB.holding rows j lk) SelectFaults.healthy n =
      ((some ((rows.filter (fun r => decide (r.name = n))).map functionOf), none),
        SymbolsDB.holding rows (j ++ [Call.querySelect n]) lk) := by
  simp only [GetFunctions, selectFunc_Query, SymbolsDB.holding, SelectFaults.healthy]
  rw [scanLoop_healthy]
  simp

theorem OpenSymbolsDB_existing (rows : List Row) :
    OpenSymbolsDB OpenFaults.healthy (some { functions := some rows }) =
      Outcome.ok (reopenedStore rows) := rfl

theorem OpenSymbolsDB_noFile :
    OpenSymbolsDB OpenFaults.healthy none = Outcome.ok freshStore := rfl

theorem OpenSymbolsDB_noTable :
    OpenSymbolsDB OpenFaults.healthy (some { functions := none }) = Outcome.ok freshStore := rfl

/-- The handle OpenSymbolsDB returns on an existing table cannot store a new key: the rows
that empty left open hold their read lock, InsertFunction returns the lock error and the
table is unchanged. -/
theorem InsertFunction_reopened_locked (rows : List Row) (s : Function)
    (h : hasKey rows s.name s.file = false) :
    (InsertFunction (reopenedStore rows) none s).1 = some Error.locked ∧
    (InsertFunction (reopenedStore rows) none s).2.rows = rows := by
  unfold reopenedStore
  rw [InsertFunction_holding]
  simp [h, SymbolsDB.holding, SymbolsDB.rows]

/-! ## InsertFunction and GetFunctions -/

/-- C1, as stated, fails.  The store holds (f, a.c, 10, 5), either because it was inserted
through the handle opened where there was no file, or because the handle was opened on a
file that holds it; InsertFunction of (f, a.c, 20, 7) then returns the key-constraint error
and the stored record keeps line 10 and column 5: it is not true that no error is returned
and the new line and column are stored. -/
theorem InsertFunction_not_upsert :
    OpenSymbolsDB OpenFaults.healthy none = Outcome.ok freshStore ∧
    OpenSymbolsDB OpenFaults.healthy (some { functions := some [rowOf demoFn] }) =
      Outcome.ok (reopenedStore [rowOf demoFn]) ∧
    (InsertFunction (InsertFunction freshStore none demoFn).2 none
        { name := "f", file := "a.c", line := 20, col := 7 }).1 = some Error.uniqueConstraint ∧
    (InsertFunction (InsertFunction freshStore none demoFn).2 none
        { name := "f", file := "a.c", line := 20, col := 7 }).2.rows =
      [{ name := "f", file := "a.c", line := 10, col := 5 }] ∧
    (InsertFunction (reopenedStore [rowOf demoFn]) none
        { name := "f", file := "a.c", line := 20, col := 7 }).1 = some Error.uniqueConstraint ∧
    (InsertFunction (reopenedStore [rowOf demoFn]) none
        { name := "f", file := "a.c", line := 20, col := 7 }).2.rows =
      [{ name := "f", file := "a.c", line := 10, col := 5 }] ∧
    ¬ ((InsertFunction (InsertFunction freshStore none demoFn).2 none
          { name := "f", file := "a.c", line := 20, col := 7 }).1 = none ∧
        rowOf { name := "f", file := "a.c", line := 20, col := 7 } ∈
          (InsertFunction (InsertFunction freshStore none demoFn).2 none
            { name := "f", file := "a.c", line := 20, col := 7 }).2.rows) :=
  ⟨rfl, rfl, by decide, by decide, by decide, by decide, by decide⟩

/-- C1, amended: InsertFunction rejects a key that is stored and inserts one that is not.
For every table content, journal and symbol s, the storage layer not failing: if a record
with the name and file of s is stored, then on every handle the key-constraint error is
returned and the stored records are unchanged (first write wins); otherwise, on a handle
with no result rows left open (such as the handle opened where the table was absent), no
error is returned, the record of s is appended to the stored ones, and exactly one record
is stored for (s.name, s.file).  On every handle exactly the one INSERT is handed to the
engine. -/
theorem InsertFunction_insert_if_absent (rows : List Row) (j : List Call) (s : Function) :
    (∀ lk : Bool, (InsertFunction (SymbolsDB.holding rows j lk) none s).2.db.journal =
        j ++ [Call.execInsert s.name s.file s.line s.col]) ∧
    if ∃ r ∈ rows, r.name = s.name ∧ r.file = s.file then
      ∀ lk : Bool,
        (InsertFunction (SymbolsDB.holding rows j lk) none s).1 = some Error.uniqueConstraint ∧
        (InsertFunction (SymbolsDB.holding rows j lk) none s).2.rows = rows
    else
      (InsertFunction (SymbolsDB.holding rows j false) none s).1 = none ∧
      (InsertFunction (SymbolsDB.holding rows j false) none s).2.rows = rows ++ [rowOf s] ∧
      keyCount (InsertFunction (SymbolsDB.holding rows j false) none s).2.rows
        s.name s.file = 1 := by
  constructor
  · intro lk
    rw [InsertFunction_holding]
    split_ifs <;> rfl
  · by_cases h : ∃ r ∈ rows, r.name = s.name ∧ r.file = s.file
    · have hk : hasKey rows s.name s.file = true := (hasKey_iff _ _ _).2 h
      rw [if_pos h]
      intro lk
      rw [InsertFunction_holding]
      simp [hk, SymbolsDB.holding, SymbolsDB.rows]
    · have hk : hasKey rows s.name s.file = false := by
        cases hb : hasKey rows s.name s.file with
        | false => rfl
        | true => exact absurd ((hasKey_iff _ _ _).1 hb) h
      rw [if_neg h, InsertFunction_holding]
      simp only [hk, Bool.false_eq_true, if_false]
      refine ⟨trivial, by simp [SymbolsDB.holding, SymbolsDB.rows], ?_⟩
      simp only [SymbolsDB.holding, SymbolsDB.rows, keyCount, Option.getD_some,
        List.countP_append]
      simp [rowOf]
      exact fun a ha h1 h2 => h ⟨a, ha, h1, h2⟩

/-- C2: for every store state, every fault of the storage layer on the insert and every
symbol s, if InsertFunction(s) returns no error then GetFunctions(s.name), the storage
layer not failing, returns a nil error and a list that contains s. -/
theorem insert_lookup_round_trip (db : SymbolsDB) (fault : Option Error) (s : Function)
    (h : (InsertFunction db fault s).1 = none) :
    ∃ rs, (GetFunctions (InsertFunction db fault s).2 SelectFaults.healthy s.name).1 =
        (some rs, none) ∧ s ∈ rs := by
  obtain ⟨⟨⟨tbl⟩, j, lk⟩⟩ := db
  cases fault with
  | some e => simp [InsertFunction_fault] at h
  | none =>
    cases tbl with
    | none =>
      obtain ⟨e, he⟩ := InsertFunction_noTable j lk none s
      rw [he] at h
      simp at h
    | some rows =>
      have hh := InsertFunction_holding rows j lk s
      simp only [SymbolsDB.holding] at hh
      rw [hh] at h ⊢
      by_cases hk : hasKey rows s.name s.file = true
      · simp [hk] at h
      · cases lk with
        | true => simp [hk] at h
        | false =>
          simp only [hk, if_false, Bool.false_eq_true]
          have := GetFunctions_holding (rows ++ [rowOf s])
            (j ++ [Call.execInsert s.name s.file s.line s.col]) false s.name
          simp only [SymbolsDB.holding] at this
          rw [this]
          refine ⟨_, rfl, ?_⟩
          simp only [List.mem_map, List.mem_filter, List.mem_append, List.mem_singleton]
          exact ⟨rowOf s, ⟨Or.inr rfl, by simp [rowOf]⟩, rfl⟩

/-- C2, the scenario of the demo: opening a store where there is no file succeeds and
gives an empty table; inserting (f, a.c, 10, 5) into it returns no error, and GetFunctions(f)
then returns exactly the one record (f, a.c, 10, 5) and a nil error. -/
theorem insert_lookup_round_trip_witness :
    OpenSymbolsDB OpenFaults.healthy none =
      Outcome.ok (SymbolsDB.holding []
        [Call.queryMaster, Call.execInit, Call.prepareInsert, Call.prepareSelect] false) ∧
    (InsertFunction (SymbolsDB.holding []
        [Call.queryMaster, Call.execInit, Call.prepareInsert, Call.prepareSelect] false)
      none demoFn).1 = none ∧
    (GetFunctions (InsertFunction (SymbolsDB.holding []
        [Call.queryMaster, Call.execInit, Call.prepareInsert, Call.prepareSelect] false)
      none demoFn).2 SelectFaults.healthy "f").1 =
        (some [{ name := "f", file := "a.c", line := 10, col := 5 }], none) ∧
    ∃ rs, (GetFunctions (InsertFunction (SymbolsDB.holding []
        [Call.queryMaster, Call.execInit, Call.prepareInsert, Call.prepareSelect] false)
      none demoFn).2 SelectFaults.healthy demoFn.name).1 = (some rs, none) ∧ demoFn ∈ rs :=
  ⟨rfl, by decide, by decide,
    insert_lookup_round_trip (SymbolsDB.holding []
      [Call.queryMaster, Call.execInit, Call.prepareInsert, Call.prepareSelect] false)
      none demoFn (by decide)⟩

/-- C3: for every store state and every name n, the storage layer not failing,
GetFunctions(n) returns a nil error and a non-nil list rs such that: every stored row
named n occurs in rs as often as it is stored, with column name in field name, column file
in field file, column line in field line and column col in field col; rows of another name
do not occur; every element of rs is named n and is a stored row; rs is the empty list
exactly when no stored row is named n.  The lookup changes no stored row and hands exactly
the one SELECT to the engine. -/
theorem GetFunctions_exact (rows : List Row) (j : List Call) (lk : Bool) (n : String) :
    ∃ rs, (GetFunctions (SymbolsDB.holding rows j lk) SelectFaults.healthy n).1 =
        (some rs, none) ∧
      (∀ r : Row, rs.count { name := r.name, file := r.file, line := r.line, col := r.col } =
        if r.name = n then rows.count r else 0) ∧
      (∀ f ∈ rs, f.name = n ∧
        ({ name := f.name, file := f.file, line := f.line, col := f.col } : Row) ∈ rows) ∧
      (rs = [] ↔ ∀ r ∈ rows, r.name ≠ n) ∧
      (GetFunctions (SymbolsDB.holding rows j lk) SelectFaults.healthy n).2 =
        SymbolsDB.holding rows (j ++ [Call.querySelect n]) lk := by
  rw [GetFunctions_holding]
  refine ⟨_, rfl, ?_, ?_, ?_, rfl⟩
  · intro r
    have hf : ({ name := r.name, file := r.file, line := r.line, col := r.col } : Function) =
        functionOf r := rfl
    rw [hf, List.count_map_of_injective _ _ functionOf_injective]
    by_cases hn : r.name = n
    · rw [if_pos hn, List.count_filter]
      simpa using hn
    · rw [if_neg hn, List.count_eq_zero]
      intro hmem
      exact hn (by simpa using (List.mem_filter.1 hmem).2)
  · intro f hf
    obtain ⟨r, hr, rfl⟩ := List.mem_map.1 hf
    obtain ⟨hmem, hname⟩ := List.mem_filter.1 hr
    exact ⟨by simpa [functionOf] using hname, by simpa [functionOf] using hmem⟩
  · simp [List.filter_eq_nil_iff]

/-! ## Opening the store -/

theorem prepareBoth_ok (f : OpenFaults) (r h : SymbolsDB)
    (hok : prepareBoth f r = Outcome.ok h) :
    ∃ rows, h.db.file.functions = some rows ∧ r.db.file.functions = some rows := by
  obtain ⟨⟨⟨tbl⟩, j, lk⟩⟩ := r
  obtain ⟨f0, f1, f2, f3, f4⟩ := f
  cases tbl with
  | none => cases f3 <;> simp [prepareBoth, prepare] at hok
  | some rows =>
    cases f3 <;> cases f4 <;> simp [prepareBoth, prepare] at hok
    subst hok
    exact ⟨rows, rfl, rfl⟩

/-- Every store OpenSymbolsDB hands out, whatever faults occur, has its table: it is of
the form the statements below quantify over. -/
theorem OpenSymbolsDB_ok_holding (f : OpenFaults) (path : File) (h : SymbolsDB)
    (hok : OpenSymbolsDB f path = Outcome.ok h) :
    ∃ rows j lk, h = SymbolsDB.holding rows j lk := by
  have key : ∃ r, prepareBoth f r = Outcome.ok h := by
    unfold OpenSymbolsDB at hok
    split at hok
    · cases hok
    · simp only at hok
      split at hok
      · cases hok
      · cases hok
      · split at hok
        · cases hok
        · cases hok
        · exact ⟨_, hok⟩
      · exact ⟨_, hok⟩
  obtain ⟨r, hr⟩ := key
  obtain ⟨rows, h1, _⟩ := prepareBoth_ok f r h hr
  obtain ⟨⟨⟨tbl⟩, j, lk⟩⟩ := h
  simp only at h1
  subst h1
  exact ⟨rows, j, lk, rfl⟩

/-- C4: OpenSymbolsDB initialises the table only when it is absent.  For every content
of an existing table, opening succeeds, hands no init statement to the engine, leaves
the table as it was, and GetFunctions(n) through the new handle returns what it returned
through any handle on the same table, for every n.  Where there is no file, or a file
without the table, opening runs the init statement, the table exists and is empty, and
GetFunctions(n) returns the empty list and a nil error for every n. -/
theorem OpenSymbolsDB_init_only_when_absent :
    (∀ rows : List Row, ∃ h,
      OpenSymbolsDB OpenFaults.healthy (some { functions := some rows }) = Outcome.ok h ∧
      Call.execInit ∉ h.db.journal ∧
      h.db.file = { functions := some rows } ∧
      ∀ (j : List Call) (lk : Bool) (n : String),
        (GetFunctions h SelectFaults.healthy n).1 =
          (GetFunctions (SymbolsDB.holding rows j lk) SelectFaults.healthy n).1) ∧
    (∃ h, OpenSymbolsDB OpenFaults.healthy none = Outcome.ok h ∧
      Call.execInit ∈ h.db.journal ∧
      h.db.file = { functions := some [] } ∧
      ∀ n : String, (GetFunctions h SelectFaults.healthy n).1 = (some [], none)) ∧
    (∃ h, OpenSymbolsDB OpenFaults.healthy (some { functions := none }) = Outcome.ok h ∧
      Call.execInit ∈ h.db.journal ∧
      h.db.file = { functions := some [] } ∧
      ∀ n : String, (GetFunctions h SelectFaults.healthy n).1 = (some [], none)) := by
  refine ⟨fun rows => ⟨_, OpenSymbolsDB_existing rows,
      by simp [reopenedStore, SymbolsDB.holding], rfl, ?_⟩,
    ⟨_, OpenSymbolsDB_noFile, by simp [freshStore, SymbolsDB.holding], rfl, ?_⟩,
    ⟨_, OpenSymbolsDB_noTable, by simp [freshStore, SymbolsDB.holding], rfl, ?_⟩⟩
  · intro j lk n
    unfold reopenedStore
    rw [GetFunctions_holding, GetFunctions_holding]
  · intro n
    unfold freshStore
    rw [GetFunctions_holding]
    rfl
  · intro n
    unfold freshStore
    rw [GetFunctions_holding]
    rfl

/-! ## The reset of main -/

/-- When os.Remove does not fail: with resetDb set, whatever is at the database path,
nothing is at the path when the store is opened, so opening runs the init statement, the
table of the opened store exists and is empty, and GetFunctions(n) returns the empty list
and a nil error for every n; with resetDb not set, what is at the path when the store is
opened is what was there, whatever faults the removal and the opening would meet. -/
theorem mainOpenStore_reset_removed (dbFile : File) :
    (mainOpenStore true none OpenFaults.healthy dbFile).1 = none ∧
    (∃ h, (mainOpenStore true none OpenFaults.healthy dbFile).2 = Outcome.ok h ∧
      Call.execInit ∈ h.db.journal ∧
      h.db.file = { functions := some [] } ∧
      ∀ n : String, (GetFunctions h SelectFaults.healthy n).1 = (some [], none)) ∧
    ∀ (rf : Option Error) (f : OpenFaults), (mainOpenStore false rf f dbFile).1 = dbFile ∧
      (mainOpenStore false rf f dbFile).2 = OpenSymbolsDB f dbFile := by
  have h1 : (osRemove none dbFile).2 = none := by cases dbFile <;> rfl
  refine ⟨by simp [mainOpenStore, h1], ?_, fun rf f => ⟨rfl, rfl⟩⟩
  refine ⟨freshStore,
    by simp only [mainOpenStore, h1, if_true, NewDBConnFactory]; exact OpenSymbolsDB_noFile,
    by simp [freshStore, SymbolsDB.holding], rfl, ?_⟩
  intro n
  unfold freshStore
  rw [GetFunctions_holding]
  rfl

/-- C7, the failing input: resetDb is set, the database file holds (f, a.c, 10, 5) and
os.Remove is refused by the operating system.  main does not look at the error of
os.Remove, so the file is still at the path when the store is opened: the open finds the
table, runs no init statement, and GetFunctions(f) returns the old record (f, a.c, 10, 5)
instead of no record. -/
theorem mainOpenStore_reset_keeps_unremoved :
    ∃ h, mainOpenStore true (some Error.permission) OpenFaults.healthy
        (some { functions := some [{ name := "f", file := "a.c", line := 10, col := 5 }] }) =
      (some { functions := some [{ name := "f", file := "a.c", line := 10, col := 5 }] },
        Outcome.ok h) ∧
      Call.execInit ∉ h.db.journal ∧
      h.rows = [{ name := "f", file := "a.c", line := 10, col := 5 }] ∧
      (GetFunctions h SelectFaults.healthy "f").1 =
        (some [{ name := "f", file := "a.c", line := 10, col := 5 }], none) :=
  ⟨reopenedStore [{ name := "f", file := "a.c", line := 10, col := 5 }],
    rfl, by decide, by decide, by decide⟩

/-! ## Failures of the storage layer -/

theorem GetFunctions_query_fault (db : SymbolsDB) (f : SelectFaults) (e : Error) (n : String)
    (hq : f.query = some e) :
    GetFunctions db f n =
      ((none, some e), { db := { db.db with journal := db.db.journal ++ [Call.querySelect n] } }) := by
  simp [GetFunctions, selectFunc_Query, hq]

theorem scanLoop_scan_fault (scan : Nat → Option Error) (e : Error) (l : List Row)
    (i k : Nat) (acc : List Function) (hk : k < l.length) (he : scan (i + k) = some e)
    (hbefore : ∀ m, m < k → scan (i + m) = none) :
    scanLoop (fetchFrom scan i l) acc = (none, some e) := by
  induction l generalizing i k acc with
  | nil => simp at hk
  | cons r rest ih =>
    cases k with
    | zero =>
      simp only [Nat.add_zero] at he
      simp [fetchFrom, scanLoop, Scan, he]
    | succ k =>
      have h0 : scan i = none := by simpa using hbefore 0 (Nat.succ_pos k)
      simp only [fetchFrom, scanLoop, Scan, h0]
      apply ih (i + 1) k
      · simpa using hk
      · rw [← he]; congr 1; omega
      · intro m hm
        have := hbefore (m + 1) (by omega)
        rw [← this]; congr 1; omega

/-- Where the failures are reported, they are returned unchanged and without a second
attempt: a failing Exec makes InsertFunction return that error and leaves the rows as
they were; a failing Query makes GetFunctions return a nil slice and that error; a failing
Scan of a delivered row makes GetFunctions return a nil slice and that error, the rows
read before it being dropped (and the result rows left open); each operation hands one
statement to the engine. -/
theorem storage_errors_returned (rows : List Row) (j : List Call) (lk : Bool) (e : Error) :
    (∀ fn : Function,
      InsertFunction (SymbolsDB.holding rows j lk) (some e) fn =
        (some e, SymbolsDB.holding rows
          (j ++ [Call.execInsert fn.name fn.file fn.line fn.col]) lk)) ∧
    (∀ (f : SelectFaults) (n : String), f.query = some e →
      GetFunctions (SymbolsDB.holding rows j lk) f n =
        ((none, some e), SymbolsDB.holding rows (j ++ [Call.querySelect n]) lk)) ∧
    (∀ (scan : Nat → Option Error) (n : String) (k : Nat),
      k < (rows.filter (fun r => decide (r.name = n))).length →
      scan k = some e → (∀ m, m < k → scan m = none) →
      GetFunctions (SymbolsDB.holding rows j lk) { query := none, step := none, scan := scan } n =
        ((none, some e), SymbolsDB.holding rows (j ++ [Call.querySelect n]) true)) := by
  refine ⟨fun fn => ?_, fun f n hq => ?_, fun scan n k hk he hb => ?_⟩
  · rw [InsertFunction_fault]; rfl
  · rw [GetFunctions_query_fault _ _ _ _ hq]; rfl
  · simp only [GetFunctions, selectFunc_Query, SymbolsDB.holding]
    rw [scanLoop_scan_fault scan e _ 0 k [] hk (by simpa using he)
      (fun m hm => by simpa using hb m hm)]

/-- C8, the failing input: the store holds (f, a.c, 10, 5) and (f, b.c, 3, 1) and the
SELECT fails while stepping to its second row.  Next then reports false, as at the end of
the rows, and GetFunctions, which does not consult the error of the rows after its loop,
returns the one record read so far and a nil error: neither a nil slice nor an error. -/
theorem GetFunctions_drops_step_failure (lk : Bool) :
    (GetFunctions
        (SymbolsDB.holding
          [{ name := "f", file := "a.c", line := 10, col := 5 },
           { name := "f", file := "b.c", line := 3, col := 1 }] [] lk)
        { query := none, step := some 1, scan := fun _ => none } "f").1 =
      (some [{ name := "f", file := "a.c", line := 10, col := 5 }], none) := by
  cases lk <;> decide

/-! ## Sequences of inserts -/

theorem InsertFunction_tableStep (rows : List Row) (j : List Call) (lk : Bool)
    (op : Option Error × Function) :
    (InsertFunction (SymbolsDB.holding rows j lk) op.1 op.2).2 =
      SymbolsDB.holding (tableStep lk rows op)
        (j ++ [Call.execInsert op.2.name op.2.file op.2.line op.2.col]) lk := by
  obtain ⟨fault, fn⟩ := op
  cases fault with
  | some e => rw [InsertFunction_fault]; simp [tableStep, SymbolsDB.holding]
  | none =>
    rw [InsertFunction_holding]
    by_cases hk : hasKey rows fn.name fn.file = true
    · simp [tableStep, hk]
    · cases lk <;> simp [tableStep, hk]

theorem insertEach_holding (ops : List (Option Error × Function)) (rows : List Row)
    (j : List Call) (lk : Bool) :
    ∃ j2, insertEach ops (SymbolsDB.holding rows j lk) =
      SymbolsDB.holding (tableAfter lk ops rows) j2 lk := by
  induction ops generalizing rows j with
  | nil => exact ⟨j, rfl⟩
  | cons op rest ih =>
    obtain ⟨fault, fn⟩ := op
    simp only [insertEach, tableAfter]
    have := InsertFunction_tableStep rows j lk (fault, fn)
    simp only at this
    rw [this]
    exact ih _ _

theorem insertEach_noTable (ops : List (Option Error × Function)) (j : List Call) (lk : Bool) :
    (insertEach ops
        { db := { file := { functions := none }, journal := j, unclosedRows := lk } }).db.file =
      { functions := none } := by
  induction ops generalizing j with
  | nil => rfl
  | cons op rest ih =>
    obtain ⟨fault, fn⟩ := op
    obtain ⟨e, he⟩ := InsertFunction_noTable j lk fault fn
    simp only [insertEach, he]
    exact ih _

theorem hasKey_append (rows more : List Row) (n f : String) :
    hasKey (rows ++ more) n f = (hasKey rows n f || hasKey more n f) := by
  simp [hasKey]

theorem hasKey_tableStep_of_hasKey (lk : Bool) (rows : List Row)
    (op : Option Error × Function) (n f : String) (h : hasKey rows n f = true) :
    hasKey (tableStep lk rows op) n f = true := by
  unfold tableStep
  split_ifs
  · exact h
  · rw [hasKey_append, h]; rfl

theorem hasKey_tableAfter_of_hasKey (lk : Bool) (ops : List (Option Error × Function))
    (rows : List Row) (n f : String) (h : hasKey rows n f = true) :
    hasKey (tableAfter lk ops rows) n f = true := by
  induction ops generalizing rows with
  | nil => exact h
  | cons op rest ih => exact ih _ (hasKey_tableStep_of_hasKey lk rows op n f h)

theorem tableAfter_eq_self (lk : Bool) (ops : List (Option Error × Function)) (rows : List Row)
    (h : ∀ op ∈ ops, op.1.isSome = true ∨ hasKey rows op.2.name op.2.file = true ∨ lk = true) :
    tableAfter lk ops rows = rows := by
  induction ops with
  | nil => rfl
  | cons op rest ih =>
    have h0 : tableStep lk rows op = rows := by
      unfold tableStep
      rcases h op (List.mem_cons_self _ _) with h1 | h1 | h1 <;> simp [h1]
    simp only [tableAfter, h0]
    exact ih (fun o ho => h o (List.mem_cons_of_mem _ ho))

theorem hasKey_tableAfter_healthy (l : List Function) (rows : List Row) :
    ∀ fn ∈ l,
      hasKey (tableAfter false (l.map (fun fn => (none, fn))) rows) fn.name fn.file = true := by
  induction l generalizing rows with
  | nil => intro fn h; cases h
  | cons a rest ih =>
    intro fn hfn
    simp only [List.map_cons, tableAfter]
    rcases List.mem_cons.1 hfn with rfl | hmem
    · apply hasKey_tableAfter_of_hasKey
      unfold tableStep
      by_cases hk : hasKey rows fn.name fn.file = true
      · simp [hk]
      · rw [Bool.not_eq_true] at hk
        simp only [hk, Option.isSome_none, Bool.or_self, Bool.false_eq_true, if_false]
        rw [hasKey_append]
        simp [hasKey, rowOf]
    · exact ih _ fn hmem

theorem tableAfter_append (lk : Bool) (ops : List (Option Error × Function)) (rows : List Row) :
    ∃ added, tableAfter lk ops rows = rows ++ added := by
  induction ops generalizing rows with
  | nil => exact ⟨[], by simp [tableAfter]⟩
  | cons op rest ih =>
    obtain ⟨added, h⟩ := ih (tableStep lk rows op)
    simp only [tableAfter, h]
    unfold tableStep
    split_ifs
    · exact ⟨added, rfl⟩
    · exact ⟨rowOf op.2 :: added, by simp⟩

theorem KeyUnique_tableStep (lk : Bool) (rows : List Row) (op : Option Error × Function)
    (h : KeyUnique rows) : KeyUnique (tableStep lk rows op) := by
  unfold tableStep
  split_ifs with hc
  · exact h
  · have hk : hasKey rows op.2.name op.2.file = false := by
      cases hb : hasKey rows op.2.name op.2.file with
      | false => rfl
      | true => simp [hb] at hc
    unfold KeyUnique at h ⊢
    rw [List.map_append, List.nodup_append]
    refine ⟨h, by simp, ?_⟩
    intro a ha hb
    simp only [List.map_cons, List.map_nil, List.mem_singleton, rowOf] at hb
    obtain ⟨r, hr, hra⟩ := List.mem_map.1 ha
    have : hasKey rows op.2.name op.2.file = true := by
      rw [hasKey_iff]
      refine ⟨r, hr, ?_⟩
      rw [hb] at hra
      exact ⟨congrArg Prod.fst hra, congrArg Prod.snd hra⟩
    rw [hk] at this
    cases this

theorem KeyUnique_tableAfter (lk : Bool) (ops : List (Option Error × Function))
    (rows : List Row) (h : KeyUnique rows) : KeyUnique (tableAfter lk ops rows) := by
  induction ops generalizing rows with
  | nil => exact h
  | cons op rest ih => exact ih _ (KeyUnique_tableStep lk rows op h)

theorem KeyUnique_filter_length (rows : List Row) (h : KeyUnique rows) (n f : String) :
    (rows.filter (fun r => decide (r.name = n ∧ r.file = f))).length ≤ 1 := by
  induction rows with
  | nil => simp
  | cons r rest ih =>
    unfold KeyUnique at h ih
    rw [List.map_cons, List.nodup_cons] at h
    by_cases hr : r.name = n ∧ r.file = f
    · have hnone : rest.filter (fun r => decide (r.name = n ∧ r.file = f)) = [] := by
        rw [List.filter_eq_nil_iff]
        intro x hx hp
        have hp2 : x.name = n ∧ x.file = f := by simpa using hp
        apply h.1
        rw [List.mem_map]
        exact ⟨x, hx, by rw [hp2.1, hp2.2, hr.1, hr.2]⟩
      rw [List.filter_cons_of_pos (by simpa using hr), hnone]
      simp
    · rw [List.filter_cons_of_neg (by simpa using hr)]
      exact ih h.2

theorem tableAfter_healthy_of_nodup (l : List Function) (rows : List Row)
    (h : (l.map (fun s => (s.name, s.file))).Nodup) :
    tableAfter false (l.map (fun fn => (none, fn))) rows =
      rows ++ (l.filter (fun s => !hasKey rows s.name s.file)).map rowOf := by
  induction l generalizing rows with
  | nil => simp [tableAfter]
  | cons a rest ih =>
    rw [List.map_cons, List.nodup_cons] at h
    simp only [List.map_cons, tableAfter]
    rw [ih _ h.2]
    by_cases hk : hasKey rows a.name a.file = true
    · have h0 : tableStep false rows (none, a) = rows := by simp [tableStep, hk]
      rw [h0, List.filter_cons_of_neg (by simp [hk])]
    · rw [Bool.not_eq_true] at hk
      have h0 : tableStep false rows (none, a) = rows ++ [rowOf a] := by simp [tableStep, hk]
      have hsame : rest.filter (fun s => !hasKey (rows ++ [rowOf a]) s.name s.file) =
          rest.filter (fun s => !hasKey rows s.name s.file) := by
        apply List.filter_congr
        intro s hs
        have hne : ¬ (a.name = s.name ∧ a.file = s.file) := by
          intro hc
          apply h.1
          rw [List.mem_map]
          exact ⟨s, hs, by rw [hc.1, hc.2]⟩
        rw [hasKey_append]
        have : hasKey [rowOf a] s.name s.file = false := by
          simpa [hasKey, rowOf] using fun h1 h2 => hne ⟨h1, h2⟩
        rw [this, Bool.or_false]
      rw [h0, hsame, List.filter_cons_of_pos (by simp [hk])]
      simp

/-- C5: for every store state and every list L of symbols, the storage layer not
failing, issuing InsertFunction for each element of L twice in a row leaves the database
with the same content as issuing them once. -/
theorem insertAll_idempotent (db : SymbolsDB) (l : List Function) :
    (insertAll l (insertAll l db)).db.file = (insertAll l db).db.file ∧
    (insertAll l (insertAll l db)).rows = (insertAll l db).rows := by
  have main : (insertAll l (insertAll l db)).db.file = (insertAll l db).db.file := by
    obtain ⟨⟨⟨tbl⟩, j, lk⟩⟩ := db
    cases tbl with
    | none =>
      have h1 := insertEach_noTable (l.map (fun fn => (none, fn))) j lk
      have hform : ∃ j2 lk2,
          insertAll l
              { db := { file := { functions := none }, journal := j, unclosedRows := lk } } =
            { db := { file := { functions := none }, journal := j2, unclosedRows := lk2 } } := by
        unfold insertAll
        generalize insertEach _ _ = x at h1 ⊢
        obtain ⟨⟨fl, jj, ll⟩⟩ := x
        simp only at h1
        subst h1
        exact ⟨jj, ll, rfl⟩
      obtain ⟨j2, lk2, hform⟩ := hform
      rw [hform]
      unfold insertAll
      rw [insertEach_noTable]
    | some rows =>
      unfold insertAll
      obtain ⟨j1, h1⟩ := insertEach_holding (l.map (fun fn => (none, fn))) rows j lk
      have h1b : insertEach (l.map (fun fn => (none, fn)))
          { db := { file := { functions := some rows }, journal := j, unclosedRows := lk } } =
          SymbolsDB.holding (tableAfter lk (l.map (fun fn => (none, fn))) rows) j1 lk := h1
      rw [h1b]
      obtain ⟨j2, h2⟩ := insertEach_holding (l.map (fun fn => (none, fn)))
        (tableAfter lk (l.map (fun fn => (none, fn))) rows) j1 lk
      rw [h2, tableAfter_eq_self]
      · rfl
      · intro op hop
        obtain ⟨fn, hfn, rfl⟩ := List.mem_map.1 hop
        cases lk with
        | true => exact Or.inr (Or.inr rfl)
        | false => exact Or.inr (Or.inl (hasKey_tableAfter_healthy l rows fn hfn))
  exact ⟨main, by simp only [SymbolsDB.rows, main]⟩

/-- C10: key uniqueness is an invariant.  Opening a store where there is no file gives a
store such that after any sequence of InsertFunction calls, each answered with any fault
or none, no two stored rows share their (name, file) pair, and for every name n
GetFunctions(n) returns a nil error and a list with at most one record per file. -/
theorem key_uniqueness_invariant :
    ∃ fresh, OpenSymbolsDB OpenFaults.healthy none = Outcome.ok fresh ∧
      ∀ ops : List (Option Error × Function),
        KeyUnique (insertEach ops fresh).rows ∧
        ∀ n : String, ∃ rs,
          (GetFunctions (insertEach ops fresh) SelectFaults.healthy n).1 = (some rs, none) ∧
          ∀ file : String, (rs.filter (fun f => decide (f.file = file))).length ≤ 1 := by
  refine ⟨_, OpenSymbolsDB_noFile, fun ops => ?_⟩
  obtain ⟨j2, h2⟩ := insertEach_holding ops []
    [Call.queryMaster, Call.execInit, Call.prepareInsert, Call.prepareSelect] false
  have h2b : insertEach ops freshStore = SymbolsDB.holding (tableAfter false ops []) j2 false := h2
  rw [h2b]
  have hu : KeyUnique (tableAfter false ops []) :=
    KeyUnique_tableAfter false ops [] (by simp [KeyUnique])
  refine ⟨by simpa [SymbolsDB.holding, SymbolsDB.rows] using hu, fun n => ?_⟩
  rw [GetFunctions_holding]
  refine ⟨_, rfl, fun file => ?_⟩
  rw [List.filter_map, List.length_map, List.filter_filter]
  have hp : (fun a : Row => ((fun f : Function => decide (f.file = file)) ∘ functionOf) a &&
      decide (a.name = n)) = (fun r => decide (r.name = n ∧ r.file = file)) := by
    funext r
    simp [functionOf, Bool.and_comm]
  rw [hp]
  exact KeyUnique_filter_length _ hu n file

/-- C6, as stated, fails.  The store holds (f, a.c, 10, 5) and a.c is re-indexed after an
edit that removes f and adds g at line 12, column 1, which comes to InsertFunction of g, the
store having no other write.  Both when the re-indexing goes through the handle that
inserted f and when it goes through a handle opened anew on the file, GetFunctions(f)
afterwards still returns (f, a.c, 10, 5), not the empty list, and the stored records of
a.c are not the symbol set g alone. -/
theorem reindex_not_replace :
    OpenSymbolsDB OpenFaults.healthy (some { functions := some [rowOf demoFn] }) =
      Outcome.ok (reopenedStore [rowOf demoFn]) ∧
    (GetFunctions
        (insertAll [{ name := "g", file := "a.c", line := 12, col := 1 }]
          (reopenedStore [rowOf demoFn]))
        SelectFaults.healthy "f").1 = (some [demoFn], none) ∧
    (GetFunctions
        (insertAll [{ name := "g", file := "a.c", line := 12, col := 1 }]
          (reopenedStore [rowOf demoFn]))
        SelectFaults.healthy "f").1 ≠ (some [], none) ∧
    (insertAll [{ name := "g", file := "a.c", line := 12, col := 1 }]
        (reopenedStore [rowOf demoFn])).rows.filter (fun r => decide (r.file = "a.c")) ≠
      [{ name := "g", file := "a.c", line := 12, col := 1 }] ∧
    (GetFunctions
        (insertAll [{ name := "g", file := "a.c", line := 12, col := 1 }]
          (InsertFunction freshStore none demoFn).2)
        SelectFaults.healthy "f").1 = (some [demoFn], none) ∧
    (GetFunctions
        (insertAll [{ name := "g", file := "a.c", line := 12, col := 1 }]
          (InsertFunction freshStore none demoFn).2)
        SelectFaults.healthy "f").1 ≠ (some [], none) ∧
    (insertAll [{ name := "g", file := "a.c", line := 12, col := 1 }]
        (InsertFunction freshStore none demoFn).2).rows.filter
          (fun r => decide (r.file = "a.c")) ≠
      [{ name := "g", file := "a.c", line := 12, col := 1 }] :=
  ⟨rfl, by decide, by decide, by decide, by decide, by decide, by decide⟩

/-- C6, amended: symbols of a file are never removed or replaced by re-indexing.  For
every table content and journal: after any sequence of InsertFunction calls on any handle,
each answered with any fault or none, the stored records are those stored before,
unchanged and in place, followed by added ones, and for every name GetFunctions returns
every record of that name that was stored before; and for every file F and list S of
symbols of F with pairwise different names, after InsertFunction has been issued for each
element of S on a handle with no result rows left open, the storage layer not failing, the
stored records whose file is F are the records stored for F before, followed by the
elements of S whose name was not stored for F. -/
theorem reindex_merges (rows : List Row) (j : List Call) (F : String) (S : List Function)
    (hF : ∀ s ∈ S, s.file = F) (hS : (S.map (fun s => s.name)).Nodup) :
    (insertAll S (SymbolsDB.holding rows j false)).rows.filter (fun r => decide (r.file = F)) =
      rows.filter (fun r => decide (r.file = F)) ++
        (S.filter (fun s => !hasKey rows s.name F)).map rowOf ∧
    ∀ (lk : Bool) (ops : List (Option Error × Function)),
      (∃ added, (insertEach ops (SymbolsDB.holding rows j lk)).rows = rows ++ added) ∧
      ∀ n : String, ∃ rs,
        (GetFunctions (insertEach ops (SymbolsDB.holding rows j lk))
          SelectFaults.healthy n).1 = (some rs, none) ∧
        ∀ r ∈ rows, r.name = n → functionOf r ∈ rs := by
  constructor
  · have hkeys : (S.map (fun s => (s.name, s.file))).Nodup := by
      have hinj : S.map (fun s => (s.name, s.file)) =
          (S.map (fun s => s.name)).map (fun n => (n, F)) := by
        rw [List.map_map]
        apply List.map_congr_left
        intro s hs
        simp [hF s hs]
      rw [hinj]
      exact hS.map (fun a b hab => congrArg Prod.fst hab)
    unfold insertAll
    obtain ⟨j2, h2⟩ := insertEach_holding (S.map (fun fn => (none, fn))) rows j false
    rw [h2, tableAfter_healthy_of_nodup S rows hkeys]
    simp only [SymbolsDB.holding, SymbolsDB.rows, Option.getD_some, List.filter_append]
    congr 1
    have hcongr : S.filter (fun s => !hasKey rows s.name s.file) =
        S.filter (fun s => !hasKey rows s.name F) := by
      apply List.filter_congr
      intro s hs
      rw [hF s hs]
    rw [hcongr, List.filter_eq_self]
    intro r hr
    obtain ⟨s, hs, rfl⟩ := List.mem_map.1 hr
    simpa [rowOf] using hF s (List.mem_filter.1 hs).1
  · intro lk ops
    obtain ⟨j2, h2⟩ := insertEach_holding ops rows j lk
    obtain ⟨added, ha⟩ := tableAfter_append lk ops rows
    refine ⟨⟨added, by rw [h2]; simpa [SymbolsDB.holding, SymbolsDB.rows] using ha⟩, ?_⟩
    intro n
    rw [h2, GetFunctions_holding]
    refine ⟨_, rfl, fun r hr hn => ?_⟩
    rw [ha]
    exact List.mem_map.2 ⟨r, List.mem_filter.2 ⟨List.mem_append_left _ hr, by simpa using hn⟩, rfl⟩

/-- C6, the scenario: the handle opened where there was no file has inserted
(f, a.c, 10, 5), and a.c is re-indexed through it with the one symbol g at line 12,
column 1.  The stored records are then f followed by g; GetFunctions(f) returns the old
record and GetFunctions(g) the new one. -/
theorem reindex_merges_witness :
    (InsertFunction freshStore none demoFn).2 =
      SymbolsDB.holding [rowOf demoFn]
        [Call.queryMaster, Call.execInit, Call.prepareInsert, Call.prepareSelect,
          Call.execInsert "f" "a.c" 10 5] false ∧
    (∀ s ∈ [({ name := "g", file := "a.c", line := 12, col := 1 } : Function)], s.file = "a.c") ∧
    ([({ name := "g", file := "a.c", line := 12, col := 1 } : Function)].map
      (fun s => s.name)).Nodup ∧
    ((insertAll [{ name := "g", file := "a.c", line := 12, col := 1 }]
        (SymbolsDB.holding [rowOf demoFn]
          [Call.queryMaster, Call.execInit, Call.prepareInsert, Call.prepareSelect,
            Call.execInsert "f" "a.c" 10 5] false)).rows.filter
          (fun r => decide (r.file = "a.c")) =
      [rowOf demoFn].filter (fun r => decide (r.file = "a.c")) ++
        ([({ name := "g", file := "a.c", line := 12, col := 1 } : Function)].filter
          (fun s => !hasKey [rowOf demoFn] s.name "a.c")).map rowOf ∧
      ∀ (lk : Bool) (ops : List (Option Error × Function)),
        (∃ added, (insertEach ops (SymbolsDB.holding [rowOf demoFn]
          [Call.queryMaster, Call.execInit, Call.prepareInsert, Call.prepareSelect,
            Call.execInsert "f" "a.c" 10 5] lk)).rows = [rowOf demoFn] ++ added) ∧
        ∀ n : String, ∃ rs,
          (GetFunctions (insertEach ops (SymbolsDB.holding [rowOf demoFn]
            [Call.queryMaster, Call.execInit, Call.prepareInsert, Call.prepareSelect,
              Call.execInsert "f" "a.c" 10 5] lk))
            SelectFaults.healthy n).1 = (some rs, none) ∧
          ∀ r ∈ [rowOf demoFn], r.name = n → functionOf r ∈ rs) ∧
    (insertAll [{ name := "g", file := "a.c", line := 12, col := 1 }]
        (InsertFunction freshStore none demoFn).2).rows =
      [{ name := "f", file := "a.c", line := 10, col := 5 },
       { name := "g", file := "a.c", line := 12, col := 1 }] ∧
    (GetFunctions
        (insertAll [{ name := "g", file := "a.c", line := 12, col := 1 }]
          (InsertFunction freshStore none demoFn).2)
        SelectFaults.healthy "f").1 =
      (some [{ name := "f", file := "a.c", line := 10, col := 5 }], none) ∧
    (GetFunctions
        (insertAll [{ name := "g", file := "a.c", line := 12, col := 1 }]
          (InsertFunction freshStore none demoFn).2)
        SelectFaults.healthy "g").1 =
      (some [{ name := "g", file := "a.c", line := 12, col := 1 }], none) :=
  ⟨by decide, by decide, by decide,
    reindex_merges [rowOf demoFn]
      [Call.queryMaster, Call.execInit, Call.prepareInsert, Call.prepareSelect,
        Call.execInsert "f" "a.c" 10 5] "a.c"
      [{ name := "g", file := "a.c", line := 12, col := 1 }] (by decide) (by decide),
    by decide, by decide, by decide⟩

end Navc
